import Mathlib

/-!
Verification of the dist02cyclonedx SBOM generator.

This file gives a shallow embedding of the program's core logic:

* `listPackages` / `listPackagesLines` — the package-listing parser
  (`main.go`, `listPackages`): line-oriented "name version" output of the
  package manager, one `Package` per well-formed line.
* `correctLicenses`, `fallbackFetchLicense`, `FetchPackageLicense` — the
  license normalization pipeline (`manage_licenses.go`).
* `GetDependencies` — the result-collection loop of the concurrent
  dependency fetcher (`dependencies.go`): workers post per-package results
  on a channel; the collection loop drains exactly one result per input
  name.  The nondeterministic channel arrival order is modelled as an
  explicit list (a permutation of the input names).
* `generateSBOM` — the SBOM assembler (`main.go`, `generateSBOM`):
  components, reference identifiers, the dependency edge list and the
  synthetic root component.  External subprocess results (package listing,
  license queries, dependency queries) are parameters.

Go strings are modelled as Lean `String`, Go slices as `List`, Go maps as
association lists (`List (k × v)`): a Go map write appends in front of the
earlier writes so that `List.lookup` sees the latest write first, and a
missing key is `none` (Go's zero value `nil`).  All definitions are
executable and kernel-reducible.
-/

namespace Dist02

/-! ### String helpers

Character-list implementations of the Go standard library string
operations used by the program (`strings.Fields`, `strings.FieldsFunc`,
`strings.TrimSpace`, `strings.ToLower`, `strings.ReplaceAll`, line
splitting of `bufio.Scanner`).  They are written by structural recursion
on `String.data` so that every concrete instance evaluates in the kernel.
-/

/-- One splitting pass of `strings.FieldsFunc`: `acc` is the current run
of non-delimiter characters (reversed); empty runs are dropped, exactly
as `FieldsFunc` drops empty fields. -/
def fieldsAux (p : Char → Bool) (acc : List Char) : List Char → List String
  | [] => if acc.isEmpty then [] else [⟨acc.reverse⟩]
  | c :: cs =>
    if p c then
      if acc.isEmpty then fieldsAux p [] cs
      else (⟨acc.reverse⟩ : String) :: fieldsAux p [] cs
    else fieldsAux p (c :: acc) cs

/-- `strings.FieldsFunc s p`: maximal runs of characters not satisfying
`p`. -/
def fieldsFunc (p : Char → Bool) (s : String) : List String :=
  fieldsAux p [] s.data

/-- `strings.Fields`: split around runs of whitespace. -/
def fields (s : String) : List String :=
  fieldsFunc (fun c => c.isWhitespace) s

/-- `strings.TrimSpace` on a character list. -/
def trimChars (cs : List Char) : List Char :=
  ((cs.dropWhile (fun c => c.isWhitespace)).reverse.dropWhile
    (fun c => c.isWhitespace)).reverse

/-- `strings.TrimSpace`. -/
def trimStr (s : String) : String :=
  ⟨trimChars s.data⟩

/-- Splitting of subprocess output into lines, as `bufio.Scanner` with the
default line splitter does. -/
def linesAux (acc : List Char) : List Char → List String
  | [] => [⟨acc.reverse⟩]
  | c :: cs =>
    if c = '\n' then (⟨acc.reverse⟩ : String) :: linesAux [] cs
    else linesAux (c :: acc) cs

/-- All lines of a string. -/
def linesOf (s : String) : List String :=
  linesAux [] s.data

/-- `strings.ToLower` (ASCII, which is all the program compares). -/
def toLowerStr (s : String) : String :=
  ⟨s.data.map Char.toLower⟩

/-- `strings.ReplaceAll s " " "_"`. -/
def replaceSpaces (s : String) : String :=
  ⟨s.data.map (fun c => if c = ' ' then '_' else c)⟩

/-! ### Data model

The slice of the CycloneDX document the program populates: components
(with BOM reference identifier, package URL, CPE and license list) and
dependency edges.  `BOM.metadataComponentRef` is the BOM reference of the
metadata component (`"CDXRef-DOCUMENT"` in `generateSBOM`), which is not
part of the `components` sequence.
-/

/-- A `name`/`version` pair as produced by `listPackages` in `main.go`. -/
structure Package where
  name : String
  version : String
  deriving DecidableEq

/-- The fields of `cyclonedx.Component` that `generateSBOM` computes. -/
structure Component where
  type : String
  name : String
  version : String
  bomRef : String
  purl : String
  cpe : String
  licenses : List String
  deriving DecidableEq

/-- A `cyclonedx.Dependency`: edge source `ref` and target list. -/
structure Dependency where
  ref : String
  dependencies : List String
  deriving DecidableEq

/-- The part of `cyclonedx.BOM` that the claims are about. -/
structure BOM where
  metadataComponentRef : String
  components : List Component
  dependencies : List Dependency
  deriving DecidableEq

/-! ### Package listing (`main.go`, `listPackages`) -/

/-- One iteration of the scanner loop in `listPackages`: trim the line,
split into whitespace-separated fields, and accept the line exactly when
it has exactly two fields (`if len(parts) == 2`), the first becoming the
package name and the second the version. -/
def parsePackageLine (line : String) : Option Package :=
  match fields (trimStr line) with
  | [a, b] => some { name := a, version := b }
  | _ => none

/-- The scanner loop of `listPackages` over the output lines. -/
def listPackagesLines : List String → List Package
  | [] => []
  | line :: rest =>
    match parsePackageLine line with
    | some p => p :: listPackagesLines rest
    | none => listPackagesLines rest

/-- `listPackages`: dispatch on the package manager (unsupported managers
fail before any subprocess runs), then parse the subprocess output.
`output = none` models a failing subprocess (`cmd.Output()` error). -/
def listPackages (packageManager : String) (output : Option String) :
    Except String (List Package) :=
  if packageManager = "dpkg" ∨ packageManager = "apk" ∨ packageManager = "rpm"
  then
    match output with
    | none => Except.error ("error executing command")
    | some out => Except.ok (listPackagesLines (linesOf out))
  else Except.error ("unsupported package manager: " ++ packageManager)

/-! ### License normalization (`manage_licenses.go`) -/

/-- The static correction table `licenseCorrections`, entry for entry. -/
def licenseCorrections : List (String × String) :=
  [("GPL-3+", "GPL-3.0+"),
   ("BSD-2-clause", "BSD-2-Clause"),
   ("BSD-3-clause", "BSD-3-Clause"),
   ("GPL-3", "GPL-3.0"),
   ("GPL-2+", "GPL-2.0+"),
   ("GPL-2", "GPL-2.0"),
   ("GPL-2)", "GPL-2.0"),
   ("GPL-1", "GPL-1.0"),
   ("GPL-1+", "GPL-1.0+"),
   ("LGPL-1", "LGPL-1.0"),
   ("LGPL-1+", "LGPL-1.0+"),
   ("LGPL-2", "LGPL-2.0"),
   ("LGPL-2+", "LGPL-2.0+"),
   ("LGPL-3", "LGPL-3.0"),
   ("LGPL-3+", "LGPL-3.0+"),
   ("AGPL-1", "AGPL-1.0"),
   ("AGPL-2", "AGPL-2.0"),
   ("AGPL-3", "AGPL-3.0"),
   ("WTFPL-2", "WTFPL"),
   ("APACHE-2-LLVM-EXCEPTIONS", "Apache-2.0"),
   ("Artistic", "Artistic-2.0"),
   ("GPL", "GPL-3.0"),
   ("GPL-any", "GPL-3.0"),
   ("BSD-2", "BSD-2-Clause"),
   ("BSD-3", "BSD-3-Clause"),
   ("BSD-4", "BSD-4-Clause"),
   ("BSD-4-clause", "BSD-4-Clause"),
   ("Apache-2", "Apache-2.0"),
   ("GFDL-NIV-1.3+", "GFDL-1.3"),
   ("SIL-OFL-1.1", "OFL-1.1"),
   ("SIL-1.1", "OFL-1.1"),
   ("AGPL-3+", "AGPL-3.0-or-later"),
   ("OpenLDAP-2.8", "OLDAP-2.8"),
   ("LPGL-2.1+", "LGPL-2.1-or-later"),
   ("MIT-1", "MIT"),
   ("BSD-3-clauses", "BSD-3-Clause")]

/-- The delimiter set of `correctLicenses`' `FieldsFunc` call. -/
def isLicenseDelim (r : Char) : Bool :=
  r = ',' || r = '|' || r = '/' || r = '&' || r = ' ' || r = ';'

/-- One iteration of the token loop in `correctLicenses`: trim the token,
drop the bind words `"and"`/`"or"`, rewrite it through
`licenseCorrections`, and append it to the accumulated `validLicenses`
exactly when the (possibly corrected) token is in the SPDX vocabulary
`spdx` (the program's global `spdxLicenses` map, loaded from the schema
file at startup). -/
def correctStep (spdx : List String) (acc : List String) (token : String) :
    List String :=
  let token := trimStr token
  if token = "and" ∨ token = "or" then acc
  else
    let token := ((licenseCorrections.lookup token).getD token)
    if spdx.contains token then acc ++ [token] else acc

/-- `correctLicenses`: tokenize the raw license string on the delimiter
set and run the token loop.  Valid tokens are appended in encounter
order, without deduplication. -/
def correctLicenses (spdx : List String) (licenses : String) : List String :=
  (fieldsFunc isLicenseDelim licenses).foldl (correctStep spdx) []

/-- `fallbackFetchLicense`: scan the successfully-read license files (in
path order, each as its list of lines) for the first line that, after
trimming, starts with `"License:"`; return the rest of that line,
trimmed.  If no file has such a line the result is `"UNKNOWN"`. -/
def findLicenseLine : List String → Option String
  | [] => none
  | line :: rest =>
    let l := trimChars line.data
    if ("License:".data.isPrefixOf l) then some ⟨trimChars (l.drop 8)⟩
    else findLicenseLine rest

/-- `fallbackFetchLicense` over the list of readable candidate files
(`files` holds the lines of each file that `os.ReadFile` succeeded on,
in the order of the probed paths). -/
def fallbackFetchLicense (files : List (List String)) : String :=
  match files with
  | [] => "UNKNOWN"
  | f :: rest =>
    match findLicenseLine f with
    | some l => l
    | none => fallbackFetchLicense rest

/-- `FetchPackageLicense`: for a known package manager, run the native
license query (`native` is its output, `none` when `cmd.Output()` fails);
if the query fails or produces empty output, fall back to the license
files; for an unknown manager go straight to the fallback.  The raw
string is then normalized by `correctLicenses`.  The function is total:
it never fails. -/
def FetchPackageLicense (spdx : List String) (packageManager : String)
    (native : Option String) (files : List (List String)) : List String :=
  if packageManager = "dpkg" ∨ packageManager = "apk" ∨ packageManager = "rpm"
  then
    match native with
    | none => correctLicenses spdx (fallbackFetchLicense files)
    | some out =>
      if out.data.length = 0 then
        correctLicenses spdx (fallbackFetchLicense files)
      else correctLicenses spdx (trimStr out)
  else correctLicenses spdx (fallbackFetchLicense files)

/-! ### Dependency fetching (`dependencies.go`, `GetDependencies`)

Workers run `fetchDependencies` for each queued package name and post a
`(name, result)` record on the results channel.  The collection loop of
`GetDependencies` drains exactly `len(packageNames)` records, in whatever
order they arrive, aborting with the first error it sees and otherwise
inserting `name ↦ dependencies` into the map.  We model the channel's
arrival sequence as an explicit list `arrival`; a run of the program
corresponds to an `arrival` that is some permutation of the input names.
Each worker's outcome for a given name is the oracle
`fetch : String → Except String (List String)`.
-/

/-- The result-collection loop of `GetDependencies`: fold over the
results in arrival order; the first error aborts the whole batch with
that error and no map (`return nil, res.err`); otherwise every record is
inserted and the full map is returned. -/
def GetDependencies (fetch : String → Except String (List String)) :
    List String → Except String (List (String × List String))
  | [] => Except.ok []
  | n :: rest =>
    match fetch n with
    | Except.error e => Except.error e
    | Except.ok deps =>
      match GetDependencies fetch rest with
      | Except.error e => Except.error e
      | Except.ok m => Except.ok ((n, deps) :: m)

/-! ### SBOM assembly (`main.go`, `generateSBOM`) -/

/-- The synthetic root component created by `generateSBOM`. -/
def rootComponent (version : String) : Component :=
  { type := "application", name := "RootComponent", version := version,
    bomRef := "CDXRef-RootComponent", purl := "", cpe := "", licenses := [] }

/-- The BOM reference identifier `fmt.Sprintf("%d-%s", i, name)`. -/
def bomRefOf (i : Nat) (name : String) : String :=
  Nat.repr i ++ "-" ++ name

/-- The distro-to-package-manager switch in `generateSBOM`. -/
def packageManagerFor (distro : String) : Option String :=
  let d := toLowerStr distro
  if d = "ubuntu" ∨ d = "debian" then some ("dpkg")
  else if d = "alpine" then some ("apk")
  else if d = "centos" ∨ d = "fedora" ∨ d = "rhel" ∨ d = "opensuse" ∨
    d = "rocky" then some ("rpm")
  else none

/-- The component built for the package at (1-based) position `i` of the
listing: library type, BOM reference `"{i}-{name}"`, package URL, CPE and
the licenses from `FetchPackageLicense` with the `"UNKNOWN"` sentinel
filtered out (the license loop skips `license != "UNKNOWN"`).
`licenseOf` is the per-package result of `FetchPackageLicense`. -/
def mkComponent (packageManager distro : String)
    (licenseOf : String → List String) (i : Nat) (p : Package) : Component :=
  { type := "library", name := p.name, version := p.version,
    bomRef := bomRefOf i p.name,
    purl := "pkg:" ++ packageManager ++ "/" ++ p.name ++ "@" ++ p.version,
    cpe := "cpe:2.3:a:" ++ replaceSpaces distro ++ ":" ++ p.name ++ ":" ++
      p.version ++ ":*:*:*:*:*:*:*",
    licenses := (licenseOf p.name).filter (fun l => l ≠ "UNKNOWN") }

/-- The package loop of `generateSBOM`: one component per listed package,
with the ordinal `i` starting at 1 (`i+1` for the `i`-th slice entry). -/
def mkPkgComponents (packageManager distro : String)
    (licenseOf : String → List String) : Nat → List Package → List Component
  | _, [] => []
  | i, p :: ps =>
    mkComponent packageManager distro licenseOf i p ::
      mkPkgComponents packageManager distro licenseOf (i + 1) ps

/-- The `componentMap` built by the same loop: `componentMap[pkg.Name] =
bomRef`.  A later write shadows an earlier one for the same name (Go map
assignment), so later entries are placed in front of earlier ones for
`List.lookup`. -/
def mkComponentMap : Nat → List Package → List (String × String)
  | _, [] => []
  | i, p :: ps => mkComponentMap (i + 1) ps ++ [(p.name, bomRefOf i p.name)]

/-- The dependency-edge loop of `generateSBOM` for one component: look up
its raw dependency names (a missing key is Go's `nil`), resolve each
through the `componentMap` (unresolvable names are dropped), and
deduplicate into a set (`depSet`). -/
def depTargets (componentMap : List (String × String))
    (depMap : List (String × List String)) (c : Component) : List String :=
  (((depMap.lookup c.name).getD []).filterMap
    (fun d => componentMap.lookup d)).dedup

/-- The full dependency list: the root edge (`Ref "CDXRef-DOCUMENT"`,
created first and therefore always present) accumulates every component's
BOM reference in component order; after it, one edge per component whose
resolved target set is non-empty. -/
def buildDependencies (componentMap : List (String × String))
    (depMap : List (String × List String)) (components : List Component) :
    List Dependency :=
  { ref := "CDXRef-DOCUMENT",
    dependencies := components.map Component.bomRef } ::
  components.filterMap
    (fun c =>
      let depRefs := depTargets componentMap depMap c
      if depRefs.isEmpty then none
      else some { ref := c.bomRef, dependencies := depRefs })

/-- The batch of names `generateSBOM` passes to `GetDependencies`: the
names of all components (root included) with `"RootComponent"` filtered
out. -/
def filteredPackageNames (packages : List Package) : List String :=
  ("RootComponent" :: packages.map Package.name).filter
    (fun n => n ≠ "RootComponent")

/-- `generateSBOM`.  The subprocess world is passed in: `packages` is the
(successful) result of `listPackages`, `licenseOf` the per-package result
of `FetchPackageLicense`, `fetch` the per-package dependency-query
outcome, and `arrival` the order in which worker results leave the
channel inside `GetDependencies` (a permutation of
`filteredPackageNames packages` in any real run).  An unsupported
distribution fails before anything else; a dependency-fetch failure
aborts the run with no document. -/
def generateSBOM (distro version : String) (packages : List Package)
    (licenseOf : String → List String)
    (fetch : String → Except String (List String)) (arrival : List String) :
    Except String BOM :=
  match packageManagerFor distro with
  | none => Except.error ("unsupported distribution: " ++ distro)
  | some pm =>
    let components :=
      rootComponent version :: mkPkgComponents pm distro licenseOf 1 packages
    let componentMap := mkComponentMap 1 packages
    match GetDependencies fetch arrival with
    | Except.error e => Except.error ("error getting dependencies: " ++ e)
    | Except.ok depMap =>
      Except.ok
        { metadataComponentRef := "CDXRef-DOCUMENT",
          components := components,
          dependencies := buildDependencies componentMap depMap components }

/-! ### Decimal representation

`fmt.Sprintf("%d-%s", i, name)` is modelled with `Nat.repr`.  The claims
about reference-identifier uniqueness need that `Nat.repr` is injective
and produces only digit characters; we prove both from the fuel-based
`Nat.toDigitsCore`.
-/

theorem toDigitsCore_succ (f n : Nat) (acc : List Char) :
    Nat.toDigitsCore 10 (f + 1) n acc =
      if n / 10 = 0 then Nat.digitChar (n % 10) :: acc
      else Nat.toDigitsCore 10 f (n / 10) (Nat.digitChar (n % 10) :: acc) :=
  rfl

theorem toDigitsCore_append (f n : Nat) (acc : List Char) :
    Nat.toDigitsCore 10 f n acc = Nat.toDigitsCore 10 f n [] ++ acc := by
  induction f generalizing n acc with
  | zero => simp [Nat.toDigitsCore]
  | succ f ih =>
    rw [toDigitsCore_succ, toDigitsCore_succ]
    by_cases h : n / 10 = 0
    · simp [h]
    · rw [if_neg h, if_neg h, ih (n / 10) (Nat.digitChar (n % 10) :: acc),
        ih (n / 10) (Nat.digitChar (n % 10) :: [])]
      simp

theorem toDigitsCore_fuel (f₁ f₂ n : Nat) (acc : List Char) (h₁ : n < f₁)
    (h₂ : n < f₂) :
    Nat.toDigitsCore 10 f₁ n acc = Nat.toDigitsCore 10 f₂ n acc := by
  induction f₁ generalizing f₂ n acc with
  | zero => omega
  | succ f₁ ih =>
    cases f₂ with
    | zero => omega
    | succ f₂ =>
      rw [toDigitsCore_succ, toDigitsCore_succ]
      by_cases h : n / 10 = 0
      · simp [h]
      · rw [if_neg h, if_neg h]
        have hn : 0 < n := by
          rcases Nat.eq_zero_or_pos n with h0 | h0
          · exact absurd (by simp [h0]) h
          · exact h0
        have hlt : n / 10 < n := Nat.div_lt_self hn (by norm_num)
        exact ih f₂ (n / 10) _ (by omega) (by omega)

theorem toDigits_lt_ten (n : Nat) (h : n < 10) :
    Nat.toDigits 10 n = [Nat.digitChar n] := by
  show Nat.toDigitsCore 10 (n + 1) n [] = [Nat.digitChar n]
  rw [toDigitsCore_succ, Nat.div_eq_of_lt h, Nat.mod_eq_of_lt h]
  simp

theorem toDigits_ge_ten (n : Nat) (h : 10 ≤ n) :
    Nat.toDigits 10 n =
      Nat.toDigits 10 (n / 10) ++ [Nat.digitChar (n % 10)] := by
  show Nat.toDigitsCore 10 (n + 1) n [] = _
  have h0 : ¬ n / 10 = 0 := by
    have := Nat.one_le_div_iff (show 0 < 10 by norm_num) |>.mpr h
    omega
  rw [toDigitsCore_succ, if_neg h0,
    toDigitsCore_fuel n (n / 10 + 1) (n / 10) _
      (lt_of_lt_of_le (Nat.div_lt_self (by omega) (by norm_num)) (le_refl n))
      (Nat.lt_succ_self _),
    toDigitsCore_append]
  rfl

theorem digitChar_toNat (d : Nat) (h : d < 10) :
    (Nat.digitChar d).toNat = d + 48 := by
  interval_cases d <;> rfl

theorem digitChar_isDigit (d : Nat) (h : d < 10) :
    (Nat.digitChar d).isDigit = true := by
  interval_cases d <;> rfl

/-- Decimal value of a digit string, used to invert `Nat.toDigits`. -/
def digitsVal (cs : List Char) : Nat :=
  cs.foldl (fun a c => 10 * a + (c.toNat - 48)) 0

theorem digitsVal_toDigits (n : Nat) : digitsVal (Nat.toDigits 10 n) = n := by
  induction n using Nat.strong_induction_on with
  | _ n ih =>
    by_cases h : n < 10
    · rw [toDigits_lt_ten n h]
      simp [digitsVal, digitChar_toNat n h]
    · push_neg at h
      have hn : 0 < n := by omega
      have hlt : n / 10 < n := Nat.div_lt_self hn (by norm_num)
      have h1 := ih (n / 10) hlt
      rw [toDigits_ge_ten n h]
      show List.foldl _ 0 (Nat.toDigits 10 (n / 10) ++ [_]) = n
      rw [List.foldl_append]
      show 10 * digitsVal (Nat.toDigits 10 (n / 10)) +
        ((Nat.digitChar (n % 10)).toNat - 48) = n
      rw [h1, digitChar_toNat (n % 10) (Nat.mod_lt _ (by norm_num))]
      omega

theorem natRepr_data (n : Nat) : (Nat.repr n).data = Nat.toDigits 10 n := rfl

theorem natRepr_injective {m n : Nat} (h : Nat.repr m = Nat.repr n) :
    m = n := by
  have hd : Nat.toDigits 10 m = Nat.toDigits 10 n := congrArg String.data h
  have := congrArg digitsVal hd
  rwa [digitsVal_toDigits, digitsVal_toDigits] at this

theorem toDigits_isDigit (n : Nat) :
    ∀ c ∈ Nat.toDigits 10 n, c.isDigit = true := by
  induction n using Nat.strong_induction_on with
  | _ n ih =>
    intro c hc
    by_cases h : n < 10
    · rw [toDigits_lt_ten n h] at hc
      simp at hc
      exact hc ▸ digitChar_isDigit n h
    · push_neg at h
      rw [toDigits_ge_ten n h] at hc
      rcases List.mem_append.mp hc with hc | hc
      · exact ih (n / 10) (Nat.div_lt_self (by omega) (by norm_num)) c hc
      · simp at hc
        exact hc ▸ digitChar_isDigit (n % 10) (Nat.mod_lt _ (by norm_num))

theorem toDigits_ne_nil (n : Nat) : Nat.toDigits 10 n ≠ [] := by
  by_cases h : n < 10
  · rw [toDigits_lt_ten n h]
    simp
  · rw [toDigits_ge_ten n (by omega)]
    simp

/-! ### Reference identifier uniqueness -/

theorem takeWhile_append_cons {α} (p : α → Bool) (l : List α) (c : α)
    (r : List α) (hl : ∀ x ∈ l, p x = true) (hc : p c = false) :
    (l ++ c :: r).takeWhile p = l ∧ (l ++ c :: r).dropWhile p = c :: r := by
  induction l with
  | nil => simp [List.takeWhile_cons, List.dropWhile_cons, hc]
  | cons a l ih =>
    have pa : p a = true := hl a (List.mem_cons_self a l)
    have := ih (fun x hx => hl x (List.mem_cons_of_mem a hx))
    simp [List.takeWhile_cons, List.dropWhile_cons, pa, this.1, this.2]

theorem stringData_inj {a b : String} (h : a.data = b.data) : a = b := by
  cases a
  cases b
  exact congrArg String.mk h

theorem bomRefOf_data (k : Nat) (name : String) :
    (bomRefOf k name).data = Nat.toDigits 10 k ++ '-' :: name.data := by
  show (Nat.repr k ++ "-" ++ name).data = _
  rw [String.data_append, String.data_append, natRepr_data,
    List.append_assoc]
  rfl

theorem bomRefOf_inj {k k' : Nat} {n n' : String}
    (h : bomRefOf k n = bomRefOf k' n') : k = k' ∧ n = n' := by
  have hd := congrArg String.data h
  rw [bomRefOf_data, bomRefOf_data] at hd
  have e1 := takeWhile_append_cons Char.isDigit (Nat.toDigits 10 k) '-'
    n.data (toDigits_isDigit k) (by decide)
  have e2 := takeWhile_append_cons Char.isDigit (Nat.toDigits 10 k') '-'
    n'.data (toDigits_isDigit k') (by decide)
  have hk : Nat.toDigits 10 k = Nat.toDigits 10 k' := by
    rw [← e1.1, ← e2.1, hd]
  have hn : ('-' :: n.data : List Char) = '-' :: n'.data := by
    rw [← e1.2, ← e2.2, hd]
  refine ⟨?_, stringData_inj (by injection hn)⟩
  have := congrArg digitsVal hk
  rwa [digitsVal_toDigits, digitsVal_toDigits] at this

theorem bomRefOf_head_isDigit (k : Nat) (n : String) :
    ∃ c cs, (bomRefOf k n).data = c :: cs ∧ c.isDigit = true := by
  rcases hD : Nat.toDigits 10 k with _ | ⟨c, cs⟩
  · exact absurd hD (toDigits_ne_nil k)
  · refine ⟨c, cs ++ '-' :: n.data, ?_, ?_⟩
    · rw [bomRefOf_data, hD]
      rfl
    · exact toDigits_isDigit k c (hD ▸ List.mem_cons_self c cs)

theorem bomRefOf_ne_rootRef (k : Nat) (n : String) :
    bomRefOf k n ≠ "CDXRef-RootComponent" := by
  intro h
  obtain ⟨c, cs, hdata, hdig⟩ := bomRefOf_head_isDigit k n
  rw [h] at hdata
  have hc : c = 'C' := by
    have : ("CDXRef-RootComponent" : String).data =
        'C' :: "DXRef-RootComponent".data := rfl
    rw [this] at hdata
    injection hdata.symm
  rw [hc] at hdig
  exact absurd hdig (by decide)

theorem bomRefOf_ne_docRef (k : Nat) (n : String) :
    bomRefOf k n ≠ "CDXRef-DOCUMENT" := by
  intro h
  obtain ⟨c, cs, hdata, hdig⟩ := bomRefOf_head_isDigit k n
  rw [h] at hdata
  have hc : c = 'C' := by
    have : ("CDXRef-DOCUMENT" : String).data =
        'C' :: "DXRef-DOCUMENT".data := rfl
    rw [this] at hdata
    injection hdata.symm
  rw [hc] at hdig
  exact absurd hdig (by decide)

/-! ### Association list lemmas (Go map model) -/

theorem lookup_mem {α β} [BEq α] [LawfulBEq α] {l : List (α × β)} {k : α}
    {v : β} (h : l.lookup k = some v) : (k, v) ∈ l := by
  induction l with
  | nil => simp [List.lookup] at h
  | cons p t ih =>
    rcases p with ⟨a, b⟩
    rw [List.lookup] at h
    by_cases hk : k = a
    · subst hk
      simp at h
      simp [h]
    · have : (k == a) = false := beq_false_of_ne hk
      rw [this] at h
      exact List.mem_cons_of_mem _ (ih h)

theorem lookup_eq_some_of_mem_nodup {α β} [BEq α] [LawfulBEq α]
    {l : List (α × β)} (hn : (l.map Prod.fst).Nodup) {k : α} {v : β}
    (h : (k, v) ∈ l) : l.lookup k = some v := by
  induction l with
  | nil => simp at h
  | cons p t ih =>
    rcases p with ⟨a, b⟩
    simp only [List.map_cons, List.nodup_cons] at hn
    rcases List.mem_cons.mp h with hmem | hmem
    · injection hmem with h1 h2
      subst h1
      subst h2
      simp [List.lookup]
    · have hka : k ≠ a := by
        intro heq
        subst heq
        exact hn.1 (List.mem_map.mpr ⟨(k, v), hmem, rfl⟩)
      rw [List.lookup, beq_false_of_ne hka]
      exact ih hn.2 hmem

theorem lookup_eq_none_of_not_mem_keys {α β} [BEq α] [LawfulBEq α]
    {l : List (α × β)} {k : α} (h : k ∉ l.map Prod.fst) :
    l.lookup k = none := by
  rcases hv : l.lookup k with _ | v
  · rfl
  · exact absurd (List.mem_map.mpr ⟨(k, v), lookup_mem hv, rfl⟩) h

/-! ### Component list lemmas -/

theorem mkPkgComponents_length (pm d : String) (lic : String → List String) :
    ∀ (i : Nat) (ps : List Package),
      (mkPkgComponents pm d lic i ps).length = ps.length := by
  intro i ps
  induction ps generalizing i with
  | nil => rfl
  | cons p ps ih => simp [mkPkgComponents, ih]

theorem mkPkgComponents_map_name (pm d : String) (lic : String → List String) :
    ∀ (i : Nat) (ps : List Package),
      (mkPkgComponents pm d lic i ps).map Component.name =
        ps.map Package.name := by
  intro i ps
  induction ps generalizing i with
  | nil => rfl
  | cons p ps ih => simp [mkPkgComponents, mkComponent, ih]

theorem mkPkgComponents_getElem? (pm d : String) (lic : String → List String) :
    ∀ (i : Nat) (ps : List Package) (k : Nat),
      (mkPkgComponents pm d lic i ps)[k]? =
        (ps[k]?).map (fun p => mkComponent pm d lic (i + k) p) := by
  intro i ps
  induction ps generalizing i with
  | nil => intro k; rfl
  | cons p ps ih =>
    intro k
    cases k with
    | zero => simp [mkPkgComponents]
    | succ k =>
      simp only [mkPkgComponents, List.getElem?_cons_succ]
      rw [ih (i + 1) k]
      have : i + 1 + k = i + (k + 1) := by omega
      rw [this]

theorem mem_mkPkgComponents_bomRef {pm d : String} {lic : String → List String}
    {r : String} :
    ∀ {i : Nat} {ps : List Package},
      r ∈ (mkPkgComponents pm d lic i ps).map Component.bomRef →
        ∃ k name, i ≤ k ∧ r = bomRefOf k name := by
  intro i ps
  induction ps generalizing i with
  | nil => intro h; simp [mkPkgComponents] at h
  | cons p ps ih =>
    intro h
    simp only [mkPkgComponents, List.map_cons, List.mem_cons] at h
    rcases h with h | h
    · exact ⟨i, p.name, le_refl i, h⟩
    · obtain ⟨k, name, hk, hr⟩ := ih h
      exact ⟨k, name, by omega, hr⟩

theorem mkPkgComponents_bomRef_nodup (pm d : String)
    (lic : String → List String) :
    ∀ (i : Nat) (ps : List Package),
      ((mkPkgComponents pm d lic i ps).map Component.bomRef).Nodup := by
  intro i ps
  induction ps generalizing i with
  | nil => simp [mkPkgComponents]
  | cons p ps ih =>
    simp only [mkPkgComponents, List.map_cons, List.nodup_cons]
    refine ⟨?_, ih (i + 1)⟩
    intro hmem
    obtain ⟨k, name, hk, hr⟩ := mem_mkPkgComponents_bomRef hmem
    have := (bomRefOf_inj hr).1
    omega

theorem components_bomRef_nodup (pm d version : String)
    (lic : String → List String) (ps : List Package) :
    ((rootComponent version :: mkPkgComponents pm d lic 1 ps).map
      Component.bomRef).Nodup := by
  simp only [List.map_cons, List.nodup_cons]
  refine ⟨?_, mkPkgComponents_bomRef_nodup pm d lic 1 ps⟩
  intro hmem
  obtain ⟨k, name, _, hr⟩ := mem_mkPkgComponents_bomRef hmem
  exact bomRefOf_ne_rootRef k name hr.symm

theorem mkComponentMap_mem_bomRef {pm d : String} {lic : String → List String}
    {n r : String} :
    ∀ {i : Nat} {ps : List Package},
      (n, r) ∈ mkComponentMap i ps →
        r ∈ (mkPkgComponents pm d lic i ps).map Component.bomRef := by
  intro i ps
  induction ps generalizing i with
  | nil => intro h; simp [mkComponentMap] at h
  | cons p ps ih =>
    intro h
    simp only [mkComponentMap, List.mem_append, List.mem_singleton] at h
    simp only [mkPkgComponents, List.map_cons, List.mem_cons]
    rcases h with h | h
    · exact Or.inr (ih h)
    · injection h with h1 h2
      exact Or.inl h2

/-! ### `GetDependencies` collection lemmas -/

theorem getDependencies_ok_keys {fetch : String → Except String (List String)}
    {arrival : List String} {m : List (String × List String)}
    (h : GetDependencies fetch arrival = Except.ok m) :
    m.map Prod.fst = arrival := by
  induction arrival generalizing m with
  | nil =>
    simp only [GetDependencies] at h
    injection h with h
    subst h
    rfl
  | cons n rest ih =>
    simp only [GetDependencies] at h
    rcases hf : fetch n with e | deps
    · rw [hf] at h; exact absurd h (by simp)
    · rw [hf] at h
      rcases hrec : GetDependencies fetch rest with e | m' <;> rw [hrec] at h
      · exact absurd h (by simp)
      · injection h with h
        subst h
        simp [ih hrec]

theorem getDependencies_ok_mem {fetch : String → Except String (List String)}
    {arrival : List String} {m : List (String × List String)}
    (h : GetDependencies fetch arrival = Except.ok m) :
    ∀ p ∈ m, fetch p.1 = Except.ok p.2 := by
  induction arrival generalizing m with
  | nil =>
    simp only [GetDependencies] at h
    injection h with h
    subst h
    simp
  | cons n rest ih =>
    simp only [GetDependencies] at h
    rcases hf : fetch n with e | deps <;> rw [hf] at h
    · exact absurd h (by simp)
    · rcases hrec : GetDependencies fetch rest with e | m' <;> rw [hrec] at h
      · exact absurd h (by simp)
      · injection h with h
        subst h
        intro p hp
        rcases List.mem_cons.mp hp with hp | hp
        · subst hp; exact hf
        · exact ih hrec p hp

/-! ### `generateSBOM` inversion -/

theorem generateSBOM_ok {distro version : String} {packages : List Package}
    {licenseOf : String → List String}
    {fetch : String → Except String (List String)} {arrival : List String}
    {bom : BOM}
    (h : generateSBOM distro version packages licenseOf fetch arrival =
      Except.ok bom) :
    ∃ pm depMap, packageManagerFor distro = some pm ∧
      GetDependencies fetch arrival = Except.ok depMap ∧
      bom = { metadataComponentRef := "CDXRef-DOCUMENT",
              components := rootComponent version ::
                mkPkgComponents pm distro licenseOf 1 packages,
              dependencies := buildDependencies (mkComponentMap 1 packages)
                depMap
                (rootComponent version ::
                  mkPkgComponents pm distro licenseOf 1 packages) } := by
  unfold generateSBOM at h
  rcases hpm : packageManagerFor distro with _ | pm <;> rw [hpm] at h
  · exact absurd h (by simp)
  · rcases hdep : GetDependencies fetch arrival with e | depMap <;>
      rw [hdep] at h
    · exact absurd h (by simp)
    · injection h with h
      exact ⟨pm, depMap, rfl, rfl, h.symm⟩

/-! ### Dependency edge helpers -/

theorem mem_buildDependencies_tail {cm : List (String × String)}
    {dm : List (String × List String)} {comps : List Component}
    {e : Dependency} (he : e ∈ (buildDependencies cm dm comps).tail) :
    ∃ c ∈ comps, e.ref = c.bomRef ∧ e.dependencies = depTargets cm dm c ∧
      depTargets cm dm c ≠ [] := by
  simp only [buildDependencies, List.tail_cons] at he
  obtain ⟨c, hc, hfc⟩ := List.mem_filterMap.mp he
  by_cases hemp : (depTargets cm dm c).isEmpty
  · rw [if_pos hemp] at hfc
    exact absurd hfc (by simp)
  · rw [if_neg hemp] at hfc
    injection hfc with hfc
    subst hfc
    exact ⟨c, hc, rfl, rfl, by simpa [List.isEmpty_iff] using hemp⟩

theorem mem_depTargets {cm : List (String × String)}
    {dm : List (String × List String)} {c : Component} {t : String}
    (ht : t ∈ depTargets cm dm c) : ∃ d, cm.lookup d = some t := by
  simp only [depTargets, List.mem_dedup] at ht
  obtain ⟨d, _, hd⟩ := List.mem_filterMap.mp ht
  exact ⟨d, hd⟩

theorem components_bomRef_ne_doc {pm d version : String}
    {lic : String → List String} {ps : List Package} {c : Component}
    (hc : c ∈ rootComponent version :: mkPkgComponents pm d lic 1 ps) :
    c.bomRef ≠ "CDXRef-DOCUMENT" := by
  rcases List.mem_cons.mp hc with hc | hc
  · subst hc
    show ("CDXRef-RootComponent" : String) ≠ "CDXRef-DOCUMENT"
    decide
  · obtain ⟨k, name, _, hr⟩ :=
      mem_mkPkgComponents_bomRef (List.mem_map_of_mem Component.bomRef hc)
    rw [hr]
    exact bomRefOf_ne_docRef k name

/-! ### License validity helper -/

theorem correctStep_mem {spdx acc : List String} {x t : String}
    (ht : t ∈ correctStep spdx acc x) : t ∈ acc ∨ spdx.contains t = true := by
  unfold correctStep at ht
  simp only [] at ht
  split_ifs at ht with h1 h2
  · exact Or.inl ht
  · rcases List.mem_append.mp ht with h | h
    · exact Or.inl h
    · rw [List.mem_singleton.mp h]
      exact Or.inr h2
  · exact Or.inl ht

theorem correctLicenses_contains (spdx : List String) (s : String) :
    ∀ t ∈ correctLicenses spdx s, spdx.contains t = true := by
  have aux : ∀ (l : List String) (acc : List String),
      (∀ t ∈ acc, spdx.contains t = true) →
      ∀ t ∈ l.foldl (correctStep spdx) acc, spdx.contains t = true := by
    intro l
    induction l with
    | nil => intro acc hacc t ht; exact hacc t ht
    | cons x l ih =>
      intro acc hacc t ht
      refine ih _ ?_ t ht
      intro u hu
      rcases correctStep_mem hu with hu | hu
      · exact hacc u hu
      · exact hu
  exact aux (fieldsFunc isLicenseDelim s) [] (by simp)

/-! ### `Except` helper -/

theorem except_ok_of_isOk {ε α : Type} {x : Except ε α} (h : x.isOk = true) :
    ∃ a, x = Except.ok a := by
  cases x with
  | error e => exact absurd h (by simp [Except.isOk, Except.toBool])
  | ok a => exact ⟨a, rfl⟩

/-! ## Claims -/

/-- A concrete two-package run used by the witnesses: packages `a` and
`b`, `a` depending on `b` and on an unresolvable name, results arriving
out of order. -/
def witnessRun : Except String BOM :=
  generateSBOM ("ubuntu") ("1.0")
    [{ name := "a", version := "1.0" }, { name := "b", version := "2.0" }]
    (fun _ => [])
    (fun n => if n = "a" then Except.ok [("b"), ("zzz")] else Except.ok [])
    [("b"), ("a")]

/-- The document `witnessRun` produces. -/
def bomW : BOM :=
  { metadataComponentRef := "CDXRef-DOCUMENT",
    components :=
      [{ type := "application", name := "RootComponent", version := "1.0",
         bomRef := "CDXRef-RootComponent", purl := "", cpe := "",
         licenses := [] },
       { type := "library", name := "a", version := "1.0", bomRef := "1-a",
         purl := "pkg:dpkg/a@1.0",
         cpe := "cpe:2.3:a:ubuntu:a:1.0:*:*:*:*:*:*:*", licenses := [] },
       { type := "library", name := "b", version := "2.0", bomRef := "2-b",
         purl := "pkg:dpkg/b@2.0",
         cpe := "cpe:2.3:a:ubuntu:b:2.0:*:*:*:*:*:*:*", licenses := [] }],
    dependencies :=
      [{ ref := "CDXRef-DOCUMENT",
         dependencies := ["CDXRef-RootComponent", "1-a", "2-b"] },
       { ref := "1-a", dependencies := ["2-b"] }] }

theorem witnessRun_eq : witnessRun = Except.ok bomW := rfl

/-- Claim C8: for every successful run of `generateSBOM`, the number of
components in the document equals the number of listed packages plus one
(the synthetic root component). -/
theorem C8_component_count {distro version : String} {packages : List Package}
    {licenseOf : String → List String}
    {fetch : String → Except String (List String)} {arrival : List String}
    {bom : BOM}
    (h : generateSBOM distro version packages licenseOf fetch arrival =
      Except.ok bom) :
    bom.components.length = packages.length + 1 := by
  obtain ⟨pm, depMap, hpm, hdep, rfl⟩ := generateSBOM_ok h
  simp [mkPkgComponents_length]

/-- Witness for C8 at the concrete run `witnessRun`. -/
theorem C8_component_count_witness : bomW.components.length = 2 + 1 :=
  C8_component_count witnessRun_eq

/-- Claim C9: in every successful run of `generateSBOM`, the reference
identifier of the `k`-th listed package (1-based; component position
`k` after the synthetic root at position 0) is `"{k}-{name}"`, and all
reference identifiers in the document are unique. -/
theorem C9_reference_ids {distro version : String} {packages : List Package}
    {licenseOf : String → List String}
    {fetch : String → Except String (List String)} {arrival : List String}
    {bom : BOM}
    (h : generateSBOM distro version packages licenseOf fetch arrival =
      Except.ok bom) :
    (∀ k p, packages[k]? = some p →
      (bom.components[k + 1]?).map Component.bomRef =
        some (Nat.repr (k + 1) ++ "-" ++ p.name)) ∧
    (bom.components.map Component.bomRef).Nodup := by
  obtain ⟨pm, depMap, hpm, hdep, rfl⟩ := generateSBOM_ok h
  constructor
  · intro k p hp
    show ((rootComponent version ::
      mkPkgComponents pm distro licenseOf 1 packages)[k + 1]?).map
        Component.bomRef = _
    rw [List.getElem?_cons_succ, mkPkgComponents_getElem?, hp]
    show some (bomRefOf (1 + k) p.name) = some (bomRefOf (k + 1) p.name)
    rw [Nat.add_comm 1 k]
  · exact components_bomRef_nodup pm distro version licenseOf packages

/-- Witness for C9 at the concrete run `witnessRun`. -/
theorem C9_reference_ids_witness :
    (bomW.components[1]?).map Component.bomRef = some ("1-a") ∧
    (bomW.components[2]?).map Component.bomRef = some ("2-b") ∧
    (bomW.components.map Component.bomRef).Nodup := by
  obtain ⟨hpos, hnodup⟩ := C9_reference_ids witnessRun_eq
  exact ⟨hpos 0 { name := "a", version := "1.0" } rfl,
    hpos 1 { name := "b", version := "2.0" } rfl, hnodup⟩

/-- Claim C2: in every successful run of `generateSBOM`, the root
dependency edge is present as the first edge (even when no package has
resolvable dependencies), and its target list holds the reference
identifier of every component exactly once, whether or not the component
has its own outgoing edge. -/
theorem C2_root_edge {distro version : String} {packages : List Package}
    {licenseOf : String → List String}
    {fetch : String → Except String (List String)} {arrival : List String}
    {bom : BOM}
    (h : generateSBOM distro version packages licenseOf fetch arrival =
      Except.ok bom) :
    bom.dependencies.head? = some
      { ref := "CDXRef-DOCUMENT",
        dependencies := bom.components.map Component.bomRef } ∧
    ∀ c ∈ bom.components,
      (bom.components.map Component.bomRef).count c.bomRef = 1 := by
  obtain ⟨pm, depMap, hpm, hdep, rfl⟩ := generateSBOM_ok h
  refine ⟨rfl, ?_⟩
  intro c hc
  exact List.count_eq_one_of_mem
    (components_bomRef_nodup pm distro version licenseOf packages)
    (List.mem_map_of_mem Component.bomRef hc)

/-- Witness for C2 at the concrete run `witnessRun`: the root edge is
first and lists every component's reference identifier exactly once. -/
theorem C2_root_edge_witness :
    bomW.dependencies.head? = some
      { ref := "CDXRef-DOCUMENT",
        dependencies := bomW.components.map Component.bomRef } ∧
    ∀ c ∈ bomW.components,
      (bomW.components.map Component.bomRef).count c.bomRef = 1 :=
  C2_root_edge witnessRun_eq

/-- Counterexample to C1 as stated: in the empty-package run the root
edge's `from` reference is `"CDXRef-DOCUMENT"`, the metadata component's
reference, which is not the reference identifier of any entry of the
document's components sequence. -/
theorem C1_counterexample :
    (generateSBOM ("ubuntu") ("1.0") [] (fun _ => []) (fun _ => Except.ok [])
      []).map
      (fun bom => bom.dependencies.all
        (fun e => (bom.components.map Component.bomRef).contains e.ref)) =
      Except.ok false := rfl

/-- Claim C1, amended: in every successful run of `generateSBOM`, every
target of every dependency edge is the reference identifier of some
component, and so is the `from` reference of every edge except the first
(root) edge, whose `from` is the metadata document reference
`"CDXRef-DOCUMENT"` — a reference that never occurs among the
components. -/
theorem C1_dependency_refs {distro version : String} {packages : List Package}
    {licenseOf : String → List String}
    {fetch : String → Except String (List String)} {arrival : List String}
    {bom : BOM}
    (h : generateSBOM distro version packages licenseOf fetch arrival =
      Except.ok bom) :
    bom.dependencies.head?.map Dependency.ref = some ("CDXRef-DOCUMENT") ∧
    "CDXRef-DOCUMENT" ∉ bom.components.map Component.bomRef ∧
    (∀ e ∈ bom.dependencies.tail,
      e.ref ∈ bom.components.map Component.bomRef) ∧
    (∀ e ∈ bom.dependencies, ∀ t ∈ e.dependencies,
      t ∈ bom.components.map Component.bomRef) := by
  obtain ⟨pm, depMap, hpm, hdep, rfl⟩ := generateSBOM_ok h
  refine ⟨rfl, ?_, ?_, ?_⟩
  · intro hmem
    rcases List.mem_map.mp hmem with ⟨c, hc, hr⟩
    exact components_bomRef_ne_doc hc hr
  · intro e he
    obtain ⟨c, hc, hr, _, _⟩ := mem_buildDependencies_tail he
    rw [hr]
    exact List.mem_map_of_mem Component.bomRef hc
  · intro e he t ht
    rcases List.mem_cons.mp he with he | he
    · subst he
      exact ht
    · obtain ⟨c, hc, _, hdeps, _⟩ :=
        mem_buildDependencies_tail
          (show e ∈ (buildDependencies (mkComponentMap 1 packages) depMap
            (rootComponent version ::
              mkPkgComponents pm distro licenseOf 1 packages)).tail from he)
      rw [hdeps] at ht
      obtain ⟨d, hd⟩ := mem_depTargets ht
      have hmem := @mkComponentMap_mem_bomRef pm distro licenseOf d t 1
        packages (lookup_mem hd)
      exact List.mem_cons_of_mem _ hmem

/-- Witness for the amended C1 at the concrete run `witnessRun`. -/
theorem C1_dependency_refs_witness :
    bomW.dependencies.head?.map Dependency.ref = some ("CDXRef-DOCUMENT") ∧
    "CDXRef-DOCUMENT" ∉ bomW.components.map Component.bomRef ∧
    (∀ e ∈ bomW.dependencies.tail,
      e.ref ∈ bomW.components.map Component.bomRef) ∧
    (∀ e ∈ bomW.dependencies, ∀ t ∈ e.dependencies,
      t ∈ bomW.components.map Component.bomRef) :=
  C1_dependency_refs witnessRun_eq

/-- Counterexample to C10 as stated: with a real package named
`"RootComponent"` and a package `a` that declares a dependency on it, the
component `"1-RootComponent"` appears as a target of `a`'s edge, not only
of the root edge — the name filter only removes the name from the batch
sent to `GetDependencies`, it does not remove the component from the
`componentMap` used to resolve edge targets. -/
theorem C10_counterexample :
    (generateSBOM ("ubuntu") ("1.0")
      [{ name := "RootComponent", version := "1" },
       { name := "a", version := "1" }]
      (fun _ => []) (fun _ => Except.ok [("RootComponent")]) [("a")]).map
      (fun bom =>
        bom.components.any
          (fun c => c.name == "RootComponent" && c.bomRef == "1-RootComponent")
        && bom.dependencies.any
          (fun e => !(e.ref == "CDXRef-DOCUMENT")
            && e.dependencies.contains ("1-RootComponent"))) =
      Except.ok true := rfl

/-- Claim C10, amended: in every successful run of `generateSBOM` (with
the collection order a permutation of the filtered batch), no component
named `"RootComponent"` — the synthetic root or a real package of that
name — ever receives its own outgoing dependency edge, and the synthetic
root's reference `"CDXRef-RootComponent"` appears as a target only in the
root edge.  (A real package named `"RootComponent"` can still appear as a
target of another package's edge, as the counterexample shows.) -/
theorem C10_rootcomponent_filtered {distro version : String}
    {packages : List Package} {licenseOf : String → List String}
    {fetch : String → Except String (List String)} {arrival : List String}
    {bom : BOM}
    (h : generateSBOM distro version packages licenseOf fetch arrival =
      Except.ok bom)
    (hperm : arrival.Perm (filteredPackageNames packages)) :
    (∀ c ∈ bom.components, c.name = "RootComponent" →
      ∀ e ∈ bom.dependencies, e.ref ≠ c.bomRef) ∧
    (∀ e ∈ bom.dependencies.tail,
      "CDXRef-RootComponent" ∉ e.dependencies) := by
  obtain ⟨pm, depMap, hpm, hdep, rfl⟩ := generateSBOM_ok h
  have hkeys := getDependencies_ok_keys hdep
  have hnomem : "RootComponent" ∉ depMap.map Prod.fst := by
    rw [hkeys]
    intro hmem
    have : ("RootComponent" : String) ∈ filteredPackageNames packages :=
      hperm.mem_iff.mp hmem
    simp [filteredPackageNames, List.mem_filter] at this
  have hlook : depMap.lookup ("RootComponent") = none :=
    lookup_eq_none_of_not_mem_keys hnomem
  constructor
  · intro c hc hname e he href
    rcases List.mem_cons.mp he with he | he
    · subst he
      exact components_bomRef_ne_doc hc href.symm
    · obtain ⟨c', hc', hr', _, hne'⟩ := mem_buildDependencies_tail
        (show e ∈ (buildDependencies (mkComponentMap 1 packages) depMap
          (rootComponent version ::
            mkPkgComponents pm distro licenseOf 1 packages)).tail from he)
      have hcc : c' = c :=
        List.inj_on_of_nodup_map
          (components_bomRef_nodup pm distro version licenseOf packages)
          hc' hc (by rw [← hr', href])
      apply hne'
      rw [hcc]
      show ((((depMap.lookup c.name).getD []).filterMap
        (fun d => (mkComponentMap 1 packages).lookup d)).dedup) = []
      rw [hname, hlook]
      rfl
  · intro e he hmem
    obtain ⟨c', hc', _, hdeps', _⟩ := mem_buildDependencies_tail he
    rw [hdeps'] at hmem
    obtain ⟨d, hd⟩ := mem_depTargets hmem
    have hval := @mkComponentMap_mem_bomRef pm distro licenseOf d
      "CDXRef-RootComponent" 1 packages (lookup_mem hd)
    obtain ⟨k, name, _, hr⟩ := mem_mkPkgComponents_bomRef hval
    exact bomRefOf_ne_rootRef k name hr.symm

/-- Witness for the amended C10 at the concrete run `witnessRun` (its
arrival order `["b", "a"]` is a permutation of the filtered batch
`["a", "b"]`). -/
theorem C10_rootcomponent_filtered_witness :
    (∀ c ∈ bomW.components, c.name = "RootComponent" →
      ∀ e ∈ bomW.dependencies, e.ref ≠ c.bomRef) ∧
    (∀ e ∈ bomW.dependencies.tail,
      "CDXRef-RootComponent" ∉ e.dependencies) :=
  C10_rootcomponent_filtered witnessRun_eq (by decide)

/-- Counterexample to C3 as stated: the line `"a b c"` has three
whitespace-separated fields — at least two — yet `listPackages` skips it
(the code accepts a line only when `len(parts) == 2`). -/
theorem C3_counterexample :
    listPackages ("dpkg") (some ("a b c")) = Except.ok [] ∧
    (fields (trimStr ("a b c"))).length = 3 := by
  exact ⟨rfl, rfl⟩

/-- Claim C3, amended: for every supported package manager, parsing the
subprocess output never fails as a whole; a line is skipped exactly when
it does not have exactly two whitespace-separated fields, and every line
with exactly two fields yields one `Package` whose name is the first
field and whose version is the second. -/
theorem C3_line_parsing (pm : String) (out : String)
    (hpm : pm = "dpkg" ∨ pm = "apk" ∨ pm = "rpm") :
    listPackages pm (some out) = Except.ok (listPackagesLines (linesOf out)) ∧
    (∀ line a b, fields (trimStr line) = [a, b] →
      parsePackageLine line = some { name := a, version := b }) ∧
    (∀ line, (fields (trimStr line)).length ≠ 2 →
      parsePackageLine line = none) ∧
    (∀ ls, listPackagesLines ls = ls.filterMap parsePackageLine) := by
  refine ⟨?_, ?_, ?_, ?_⟩
  · unfold listPackages
    rw [if_pos hpm]
  · intro line a b hf
    unfold parsePackageLine
    rw [hf]
  · intro line hlen
    unfold parsePackageLine
    rcases hf : fields (trimStr line) with _ | ⟨a, _ | ⟨b, _ | ⟨c, t⟩⟩⟩
    · rfl
    · rfl
    · exact absurd (by rw [hf]; rfl) hlen
    · rfl
  · intro ls
    induction ls with
    | nil => rfl
    | cons l ls ih =>
      show listPackagesLines (l :: ls) = _
      unfold listPackagesLines
      cases hp : parsePackageLine l <;>
        simp [List.filterMap_cons, hp, ih]

/-- Witness for the amended C3 at concrete dpkg output. -/
theorem C3_line_parsing_witness :
    listPackages ("dpkg") (some ("pkg1 1.0\nbad")) =
      Except.ok (listPackagesLines (linesOf ("pkg1 1.0\nbad"))) ∧
    (∀ line a b, fields (trimStr line) = [a, b] →
      parsePackageLine line = some { name := a, version := b }) ∧
    (∀ line, (fields (trimStr line)).length ≠ 2 →
      parsePackageLine line = none) ∧
    (∀ ls, listPackagesLines ls = ls.filterMap parsePackageLine) :=
  C3_line_parsing ("dpkg") ("pkg1 1.0\nbad") (Or.inl rfl)

/-- Counterexample to C4 as stated: the native raw string `"MIT MIT"`
yields the token `"MIT"` twice — the returned collection is not a set. -/
theorem C4_counterexample :
    FetchPackageLicense [("MIT")] ("dpkg") (some ("MIT MIT")) [] =
      [("MIT"), ("MIT")] ∧
    ¬ (FetchPackageLicense [("MIT")] ("dpkg") (some ("MIT MIT")) []).Nodup := by
  exact ⟨rfl, by decide⟩

/-- Every branch of `FetchPackageLicense` normalizes some raw string. -/
theorem FetchPackageLicense_eq_correct (spdx : List String) (pm : String)
    (native : Option String) (files : List (List String)) :
    ∃ s, FetchPackageLicense spdx pm native files = correctLicenses spdx s := by
  unfold FetchPackageLicense
  by_cases hpm : pm = "dpkg" ∨ pm = "apk" ∨ pm = "rpm"
  · rw [if_pos hpm]
    rcases native with _ | out
    · exact ⟨_, rfl⟩
    · show ∃ s, (if out.data.length = 0 then
          correctLicenses spdx (fallbackFetchLicense files)
        else correctLicenses spdx (trimStr out)) = correctLicenses spdx s
      split_ifs <;> exact ⟨_, rfl⟩
  · rw [if_neg hpm]
    exact ⟨_, rfl⟩

/-- `"UNKNOWN"` normalizes to the empty list whenever the vocabulary does
not contain it (the SPDX enumeration does not). -/
theorem correctLicenses_unknown {spdx : List String}
    (hunk : spdx.contains ("UNKNOWN") = false) :
    correctLicenses spdx ("UNKNOWN") = [] := by
  show (if spdx.contains ("UNKNOWN") then [] ++ [("UNKNOWN")] else []) = []
  rw [hunk]
  simp

/-- Claim C4, amended: `FetchPackageLicense` is total (it never fails),
every returned token is in the vocabulary, and on total failure — no
usable native output and no fallback file — the result is empty.  The
returned list is however not deduplicated (see the counterexample). -/
theorem C4_license_fetch (spdx : List String) (pm : String)
    (native : Option String) (files : List (List String))
    (hunk : spdx.contains ("UNKNOWN") = false) :
    (∀ t ∈ FetchPackageLicense spdx pm native files,
      spdx.contains t = true) ∧
    FetchPackageLicense spdx pm none [] = [] ∧
    FetchPackageLicense spdx pm (some ("")) [] = [] := by
  refine ⟨?_, ?_, ?_⟩
  · obtain ⟨s, hs⟩ := FetchPackageLicense_eq_correct spdx pm native files
    rw [hs]
    exact correctLicenses_contains spdx s
  · have hnone : FetchPackageLicense spdx pm none [] =
        correctLicenses spdx ("UNKNOWN") := by
      unfold FetchPackageLicense
      split_ifs <;> rfl
    rw [hnone, correctLicenses_unknown hunk]
  · have hempty : FetchPackageLicense spdx pm (some ("")) [] =
        correctLicenses spdx ("UNKNOWN") := by
      unfold FetchPackageLicense
      split_ifs <;> rfl
    rw [hempty, correctLicenses_unknown hunk]

/-- Witness for the amended C4 at a concrete vocabulary and output. -/
theorem C4_license_fetch_witness :
    (∀ t ∈ FetchPackageLicense [("MIT")] ("dpkg") (some ("MIT and X")) [],
      ([("MIT")] : List String).contains t = true) ∧
    FetchPackageLicense [("MIT")] ("dpkg") none [] = [] ∧
    FetchPackageLicense [("MIT")] ("dpkg") (some ("")) [] = [] :=
  C4_license_fetch [("MIT")] ("dpkg") (some ("MIT and X")) [] (by decide)

/-- Claim C5: license normalization maps `"GPL-2+"` to `{"GPL-2.0+"}`
when that token is in the vocabulary, maps `"UNKNOWN"` and the empty
string to the empty set, and maps `"MIT and BSD-3-clause"` to
`{"MIT", "BSD-3-Clause"}` when those tokens are in the vocabulary — the
conjunction `"and"` dropped and the variant spelling corrected through
the static correction table. -/
theorem C5_license_normalization (spdx : List String)
    (h1 : spdx.contains ("GPL-2.0+") = true)
    (h2 : spdx.contains ("UNKNOWN") = false)
    (h3 : spdx.contains ("MIT") = true)
    (h4 : spdx.contains ("BSD-3-Clause") = true) :
    correctLicenses spdx ("GPL-2+") = [("GPL-2.0+")] ∧
    correctLicenses spdx ("UNKNOWN") = [] ∧
    correctLicenses spdx ("") = [] ∧
    correctLicenses spdx ("MIT and BSD-3-clause") =
      [("MIT"), ("BSD-3-Clause")] := by
  refine ⟨?_, correctLicenses_unknown h2, rfl, ?_⟩
  · show (if spdx.contains ("GPL-2.0+") then [] ++ [("GPL-2.0+")] else []) = _
    rw [h1]
    simp
  · show (if spdx.contains ("BSD-3-Clause") then
        (if spdx.contains ("MIT") then [] ++ [("MIT")] else []) ++
          [("BSD-3-Clause")]
      else (if spdx.contains ("MIT") then [] ++ [("MIT")] else [])) = _
    rw [h3, h4]
    simp

/-- Witness for C5 at a concrete vocabulary. -/
theorem C5_license_normalization_witness :
    correctLicenses [("GPL-2.0+"), ("MIT"), ("BSD-3-Clause")] ("GPL-2+") =
      [("GPL-2.0+")] ∧
    correctLicenses [("GPL-2.0+"), ("MIT"), ("BSD-3-Clause")] ("UNKNOWN") =
      [] ∧
    correctLicenses [("GPL-2.0+"), ("MIT"), ("BSD-3-Clause")] ("") = [] ∧
    correctLicenses [("GPL-2.0+"), ("MIT"), ("BSD-3-Clause")]
      ("MIT and BSD-3-clause") = [("MIT"), ("BSD-3-Clause")] :=
  C5_license_normalization [("GPL-2.0+"), ("MIT"), ("BSD-3-Clause")]
    (by decide) (by decide) (by decide) (by decide)

/-- Error short-circuit of the collection loop: if every result arriving
before position `|l₁|` is a success and the result at that position is an
error, the whole batch fails with exactly that error. -/
theorem getDependencies_error_at (fetch : String → Except String (List String))
    (l₁ : List String) (n : String) (l₂ : List String) (e : String)
    (hok : ∀ m ∈ l₁, ∃ d, fetch m = Except.ok d)
    (he : fetch n = Except.error e) :
    GetDependencies fetch (l₁ ++ n :: l₂) = Except.error e := by
  induction l₁ with
  | nil =>
    show GetDependencies fetch (n :: l₂) = _
    simp only [GetDependencies, he]
  | cons m l₁ ih =>
    obtain ⟨d, hd⟩ := hok m (List.mem_cons_self m l₁)
    have hrec := ih (fun x hx => hok x (List.mem_cons_of_mem m hx))
    show GetDependencies fetch (m :: (l₁ ++ n :: l₂)) = _
    simp only [GetDependencies, hd, hrec]

/-- Claim C6: if any per-package dependency fetch in the batch fails,
`GetDependencies` fails as a whole, returning the first observed
per-package error (the error of the first failing result in channel
arrival order) with no map — all partial progress is discarded, since the
`Except.error` result carries no mapping at all. -/
theorem C6_fail_fast (fetch : String → Except String (List String))
    (names l₁ l₂ : List String) (n e : String)
    (hperm : (l₁ ++ n :: l₂).Perm names)
    (hok : ∀ m ∈ l₁, ∃ d, fetch m = Except.ok d)
    (he : fetch n = Except.error e) :
    GetDependencies fetch (l₁ ++ n :: l₂) = Except.error e ∧ n ∈ names :=
  ⟨getDependencies_error_at fetch l₁ n l₂ e hok he,
    hperm.subset (List.mem_append.mpr (Or.inr (List.mem_cons_self n l₂)))⟩

/-- Witness for C6: a batch of three names whose middle arrival fails. -/
theorem C6_fail_fast_witness :
    GetDependencies
      (fun x => if x = "b" then Except.error ("boom") else Except.ok [])
      ([("a")] ++ ("b") :: [("c")]) = Except.error ("boom") ∧
    ("b" : String) ∈ [("c"), ("b"), ("a")] := by
  refine C6_fail_fast
    (fun x => if x = "b" then Except.error ("boom") else Except.ok [])
    [("c"), ("b"), ("a")] [("a")] [("c")] ("b") ("boom")
    (by decide) ?_ rfl
  intro m hm
  rw [List.mem_singleton.mp hm]
  exact ⟨[], rfl⟩

/-- Claim C7: when `GetDependencies` succeeds on a batch of distinct
names, the result is a total mapping over the input names — every input
name is a key, bound to the dependency list its fetch produced (so the
content is determined by the per-name fetch results alone, not by the
arrival order) — and exactly as many results as input names are
collected. -/
theorem C7_total_mapping (fetch : String → Except String (List String))
    (names arrival : List String) (m : List (String × List String))
    (hnd : names.Nodup) (hperm : arrival.Perm names)
    (h : GetDependencies fetch arrival = Except.ok m) :
    m.length = names.length ∧
    ∀ nm ∈ names, ∃ deps, fetch nm = Except.ok deps ∧
      m.lookup nm = some deps := by
  have hkeys := getDependencies_ok_keys h
  have hmem := getDependencies_ok_mem h
  have hard : arrival.Nodup := (hperm.nodup_iff).mpr hnd
  constructor
  · have hlen : (m.map Prod.fst).length = arrival.length :=
      congrArg List.length hkeys
    rw [List.length_map] at hlen
    rw [hlen]
    exact hperm.length_eq
  · intro nm hnm
    have hna : nm ∈ m.map Prod.fst := by
      rw [hkeys]
      exact hperm.mem_iff.mpr hnm
    obtain ⟨⟨nm', deps⟩, hpm, hfst⟩ := List.mem_map.mp hna
    have hnm' : nm' = nm := hfst
    subst hnm'
    refine ⟨deps, hmem _ hpm, ?_⟩
    exact lookup_eq_some_of_mem_nodup (hkeys ▸ hard) hpm

/-- Witness for C7: two names collected out of order still give the full
deterministic mapping. -/
theorem C7_total_mapping_witness :
    ([(("b" : String), [("x")]), (("a" : String), [])] :
      List (String × List String)).length = [("a"), ("b")].length ∧
    ∀ nm ∈ [("a"), ("b")], ∃ deps,
      (if nm = "b" then Except.ok [("x")]
        else (Except.ok [] : Except String (List String))) = Except.ok deps ∧
      ([(("b" : String), [("x")]), (("a" : String), [])] :
        List (String × List String)).lookup nm = some deps :=
  C7_total_mapping
    (fun n => if n = "b" then Except.ok [("x")] else Except.ok [])
    [("a"), ("b")] [("b"), ("a")] [(("b"), [("x")]), (("a"), [])]
    (by decide) (by decide) rfl

end Dist02
